import Mathlib

/-!
Verification of the trigger-detection, matching and suggestion-overlay logic
of the GitHub Mentions+ browser extension.  The definitions below are a
shallow embedding of `src/content_script.js` and of the last revision of
`src/utils/dom.js`: JS strings are `List Char` (with ASCII case folding for
`toLowerCase`), JS numbers are `Int` or `Nat` (JS `%` on numbers is
`Int.tmod`), JS arrays are lists, and the mutable module state touched by the
overlay code is an explicit record.  Purely visual effects (CSS text, colors,
scrollIntoView) carry no state that the verified properties mention and are
not tracked.
-/

namespace GithubMentionsPlus

/-- Character test for the regex class `[a-zA-Z0-9-_]` used by the trigger
scanners in `src/content_script.js`. -/
def isWordChar (c : Char) : Bool :=
  decide (('a' ≤ c ∧ c ≤ 'z') ∨ ('A' ≤ c ∧ c ≤ 'Z') ∨ ('0' ≤ c ∧ c ≤ '9') ∨ c = '-' ∨ c = '_')

/-- Backward scan implementing a regex of the shape `X([a-zA-Z0-9-_]*)$` for a
trigger character `X` that is itself not in the word class: walking the
reversed slice, word characters accumulate into the query; the first non-word
character reached must be the trigger for a match to exist. -/
def triggerScanAux (trigger : Char) : List Char → List Char → Option (List Char)
  | [], _ => none
  | c :: rest, acc =>
    if isWordChar c then triggerScanAux trigger rest (c :: acc)
    else if c = trigger then some acc else none

/-- Embedding of `scanForTrigger(text, pos)` (src/content_script.js:172-180):
match `/@([a-zA-Z0-9-_]*)$/` against `text.substring(0, pos)` and return the
captured group, or null when there is no match. -/
def scanForTrigger (text : List Char) (pos : Nat) : Option (List Char) :=
  triggerScanAux '@' (text.take pos).reverse []

/-- Result record of `scanForCommand`: the source returns
`{ command: match[1], query: match[1] }`. -/
structure CommandInfo where
  command : List Char
  query : List Char
deriving DecidableEq

/-- Embedding of `scanForCommand(text, pos)` (src/content_script.js:188-196):
match `/!([a-zA-Z0-9-_]*)$/` against `text.substring(0, pos)`. -/
def scanForCommand (text : List Char) (pos : Nat) : Option CommandInfo :=
  (triggerScanAux '!' (text.take pos).reverse []).map (fun q => ⟨q, q⟩)

/-- Whitespace test used only by the spec-side reading of claim C1 below. -/
def isSpaceChar (c : Char) : Bool :=
  decide (c = ' ' ∨ c = '\t' ∨ c = '\n' ∨ c = '\r')

/-- Spec-side definition (from the specification's words, for comparison with
the source scanners): the maximal whitespace-free run of characters containing
cursor position `pos` — the non-space suffix before the cursor joined with the
non-space run after it. -/
def tokenRunAt (text : List Char) (pos : Nat) : List Char :=
  ((text.take pos).reverse.takeWhile (fun c => !isSpaceChar c)).reverse
    ++ (text.drop pos).takeWhile (fun c => !isSpaceChar c)

/-- Spec-side definition: does the run contain an unescaped `@` or `!`, where
a trigger counts as escaped when the previous character is a backslash. -/
def hasUnescapedTriggerFrom (prev : Option Char) : List Char → Bool
  | [] => false
  | c :: rest =>
    decide ((c = '@' ∨ c = '!') ∧ prev ≠ some '\\') || hasUnescapedTriggerFrom (some c) rest

/-- Spec-side definition: the run contains an unescaped trigger character. -/
def hasUnescapedTrigger (run : List Char) : Bool :=
  hasUnescapedTriggerFrom none run

/-- ASCII model of JS `String.prototype.toLowerCase`. -/
def toLowerL (s : List Char) : List Char :=
  s.map Char.toLower

/-- Model of JS `String.prototype.includes`: the needle occurs contiguously in
the haystack. -/
def jsIncludes (hay needle : List Char) : Bool :=
  hay.tails.any (fun t => needle.isPrefixOf t)

/-- Model of JS `Array.prototype.slice(0, e)` where the end index may be
negative: a negative end counts from the end of the array, clamped at 0. -/
def jsSliceTo {α : Type} (l : List α) (e : Int) : List α :=
  let stop : Int := if e < 0 then max ((l.length : Int) + e) 0 else min e (l.length : Int)
  l.take stop.toNat

/-- Suggestion item as the content script builds it: plain users carry
`username`/`name`/optional `avatar`; command entries shown in the overlay are
transformed into the same shape with `isCommand` set and an optional emoji. -/
structure MentionUser where
  username : List Char
  name : List Char
  isCommand : Bool
  avatar : Option (List Char)
  emoji : Option (List Char)
deriving DecidableEq

/-- Exclusion test of `filterUsers`: the host page (GitHub) already shows a
suggestion whose username equals this user's username case-insensitively. -/
def excludedByHost (githubUsernames : List (List Char)) (user : MentionUser) : Bool :=
  githubUsernames.any (fun g => decide (toLowerL g = toLowerL user.username))

/-- Matching test of `filterUsers`: the lower-cased query occurs in the
lower-cased username or display name. -/
def matchesQuery (query : List Char) (user : MentionUser) : Bool :=
  jsIncludes (toLowerL user.username) (toLowerL query)
    || jsIncludes (toLowerL user.name) (toLowerL query)

/-- Embedding of `filterUsers(users, query)` (src/content_script.js:349-387).
The GitHub suggestion list that the source reads through
`getGitHubSuggestions()` is passed explicitly as `githubUsernames`.  Note the
budget `min(4, 7 - githubCount)` is fed to `Array.slice` unclamped. -/
def filterUsers (users : List MentionUser) (query : List Char)
    (githubUsernames : List (List Char)) : List MentionUser :=
  if users = [] then []
  else
    let filteredUsers := users.filter (fun user => !excludedByHost githubUsernames user)
    if filteredUsers = [] then []
    else if query = [] then []
    else
      let matchingUsers := filteredUsers.filter (fun user => matchesQuery query user)
      jsSliceTo matchingUsers (min 4 (7 - (githubUsernames.length : Int)))

/-- Stored value of one custom command: either the legacy plain-string format
or the object format with `content` and optional `emoji`. -/
inductive CommandData
  | legacy (s : List Char)
  | obj (content : Option (List Char)) (emoji : Option (List Char))
deriving DecidableEq

/-- Content of a command datum, as read by `getAvailableCommands` and
`executeCommand` (`commandData.content || ''` for the object format). -/
def commandDataContent : CommandData → List Char
  | .legacy s => s
  | .obj content _ => content.getD []

/-- Emoji of a command datum (`commandData.emoji`, absent for legacy). -/
def commandDataEmoji : CommandData → Option (List Char)
  | .legacy _ => none
  | .obj _ e => e

/-- Command list entry as built by `getAvailableCommands`. -/
structure CommandEntry where
  command : List Char
  description : List Char
  emoji : Option (List Char)
deriving DecidableEq

/-- Embedding of `getAvailableCommands()` (src/content_script.js:286-320):
the built-in `lgtmrand` command followed by the configured custom commands,
capped at 10 entries. -/
def getAvailableCommands (customCommands : List (List Char × CommandData)) : List CommandEntry :=
  ({ command := "lgtmrand".toList,
     description := "Insert a random LGTM GIF from GIPHY".toList,
     emoji := none } ::
    customCommands.map (fun cd =>
      { command := cd.1,
        description := (commandDataContent cd.2).take 50 ++ "...".toList,
        emoji := commandDataEmoji cd.2 })).take 10

/-- Embedding of `filterCommands(commands, query)`
(src/content_script.js:328-341). -/
def filterCommands (commands : List CommandEntry) (query : List Char) : List CommandEntry :=
  if commands = [] then []
  else if query = [] then commands.take 10
  else
    (commands.filter (fun cmd => jsIncludes (toLowerL cmd.command) (toLowerL query))).take 10

/-- Text-input element state: the value string and the selection (cursor). -/
structure InputState where
  value : List Char
  selectionStart : Nat
  selectionEnd : Nat
deriving DecidableEq

/-- Embedding of `insertMention(username)` (src/content_script.js:142-164)
acting on the active input, with the module variable `mentionStartPos` passed
explicitly.  The returned boolean records that a synthetic `input` event was
dispatched. -/
def insertMention (inp : InputState) (mentionStartPos : Nat) (username : List Char) :
    InputState × Bool :=
  let before := inp.value.take mentionStartPos
  let after := inp.value.drop inp.selectionStart
  let mentionText := '@' :: (username ++ [' '])
  let newValue := before ++ mentionText ++ after
  let newCursorPos := before.length + mentionText.length
  ({ value := newValue, selectionStart := newCursorPos, selectionEnd := newCursorPos }, true)

/-- Global, non-overlapping, left-to-right replacement of a pattern, as
performed by JS `String.prototype.replace` with a global literal regex. -/
def replaceAll (pat rep : List Char) : List Char → List Char
  | [] => []
  | c :: rest =>
    if h : pat ≠ [] ∧ pat.isPrefixOf (c :: rest) then
      rep ++ replaceAll pat rep ((c :: rest).drop pat.length)
    else
      c :: replaceAll pat rep rest
termination_by s => s.length
decreasing_by
  · simp only [List.length_drop, List.length_cons]
    have := List.length_pos.mpr h.1
    omega
  · simp only [List.length_cons]
    omega

/-- Template expansion of `executeCommand`: sequentially replace the
timestamp, date and time placeholders with the current-clock strings (the
clock readings are parameters of the embedding). -/
def expandTemplate (content nowIso nowDate nowTime : List Char) : List Char :=
  replaceAll "${time}".toList nowTime
    (replaceAll "${date}".toList nowDate
      (replaceAll "${timestamp}".toList nowIso content))

/-- Expansion half of `executeCommand(command, input)`
(src/content_script.js:203-255): built-in `lgtmrand` produces a markdown
image (from the background fetch result `lgtmImageUrl`, or the hard-coded
fallback), a configured custom command expands its template, anything else
yields the empty string. -/
def executeCommandResult (command : List Char) (customCommands : List (List Char × CommandData))
    (lgtmImageUrl : Option (List Char)) (nowIso nowDate nowTime : List Char) : List Char :=
  if command = "lgtmrand".toList then
    match lgtmImageUrl with
    | some url => "![LGTM](".toList ++ url ++ ")".toList
    | none => "![LGTM](https://media.giphy.com/media/3o7abKhOpu0NwenH3O/giphy.gif)".toList
  else
    match customCommands.lookup command with
    | some data => expandTemplate (commandDataContent data) nowIso nowDate nowTime
    | none => []

/-- Embedding of `executeCommand(command, input)`
(src/content_script.js:203-280): when the expansion is non-empty and the text
before the cursor still matches `/!([a-zA-Z0-9-_]*)$/`, splice the result over
the command span and dispatch an `input` event (the returned boolean);
otherwise leave the input untouched. -/
def executeCommand (command : List Char) (customCommands : List (List Char × CommandData))
    (lgtmImageUrl : Option (List Char)) (nowIso nowDate nowTime : List Char)
    (input : InputState) : InputState × Bool :=
  let result := executeCommandResult command customCommands lgtmImageUrl nowIso nowDate nowTime
  if result = [] then (input, false)
  else
    match scanForCommand input.value input.selectionStart with
    | some ci =>
      let commandStart := input.selectionStart - (ci.query.length + 1)
      let newText := input.value.take commandStart ++ result ++ input.value.drop input.selectionStart
      ({ value := newText, selectionStart := commandStart + result.length,
         selectionEnd := commandStart + result.length }, true)
    | none => (input, false)

/-- Geometry and identity of the anchor element handed to the overlay
positioning code (`activeInput.getBoundingClientRect()` etc.). -/
structure Anchor where
  left : Int
  bottom : Int
  width : Int
  scrollTop : Int
  elemId : Option (List Char)
deriving DecidableEq

/-- Module state of `src/utils/dom.js` (last revision): the overlay element
(`created` is whether `overlay` is non-null, `displayShown` is
`style.display !== 'none'`, `popoverOpen` is `matches(':popover-open')`,
`hasPopoverAttr` is `hasAttribute("popover")`), the rendered items, and the
selection/debounce module variables. -/
structure OverlayState where
  created : Bool
  displayShown : Bool
  popoverOpen : Bool
  hasPopoverAttr : Bool
  posLeft : Int
  posTop : Int
  posWidth : Int
  items : List MentionUser
  selectedIndex : Int
  currentSelectedIndex : Int
  lastKeyNavTime : Int
deriving DecidableEq

/-- Embedding of `isOverlayVisible()` (src/utils/dom.js:1237-1239):
`overlay && (overlay.style.display !== 'none' || overlay.matches(':popover-open'))`. -/
def isOverlayVisible (s : OverlayState) : Bool :=
  s.created && (s.displayShown || s.popoverOpen)

/-- Embedding of `updateOverlayPosition(activeInput)`
(src/utils/dom.js:946-973).  The boolean result records whether an exception
escaped the call: a null overlay or null anchor returns early, and the
`showPopover()` call is guarded by `:popover-open` and wrapped in try/catch,
so no exception ever escapes. -/
def updateOverlayPosition (s : OverlayState) (anchor : Option Anchor) :
    OverlayState × Bool :=
  match anchor with
  | none => (s, false)
  | some a =>
    if s.created = false then (s, false)
    else
      let s1 := { s with posLeft := a.left, posTop := a.bottom + 6 + a.scrollTop,
                         posWidth := a.width }
      let s2 := if s1.hasPopoverAttr = false then { s1 with hasPopoverAttr := true } else s1
      if s2.popoverOpen = false then ({ s2 with popoverOpen := true }, false)
      else (s2, false)

/-- Embedding of `updateSelection()` (src/utils/dom.js:1172-1213): an
out-of-range `selectedIndex` is reset to 0, then `currentSelectedIndex` is
synced to `selectedIndex`.  The scroll-into-view and per-item styling loops
mutate no tracked state (and their DOM calls are individually wrapped in
try/catch in the source). -/
def updateSelection (s : OverlayState) : OverlayState :=
  let s1 :=
    if s.selectedIndex < 0 ∨ (s.items.length : Int) ≤ s.selectedIndex then
      { s with selectedIndex := 0, currentSelectedIndex := 0 }
    else s
  { s1 with currentSelectedIndex := s1.selectedIndex }

/-- Embedding of `hideOverlay()` (src/utils/dom.js:1218-1231): when the
overlay exists, close the popover (guarded by `:popover-open` and wrapped in
try/catch), set `display: none`, reset `selectedIndex` and clear the item
list.  The boolean records whether an exception escaped (never). -/
def hideOverlay (s : OverlayState) : OverlayState × Bool :=
  if s.created = false then (s, false)
  else
    let s1 := if s.popoverOpen = true then { s with popoverOpen := false } else s
    ({ s1 with displayShown := false, selectedIndex := 0, items := [] }, false)

/-- Embedding of `showOverlay(users, onSelect, activeInput)`
(src/utils/dom.js:981-1167): with a created overlay and a non-empty user
list, reset the selection and debounce state, render the first four users as
items, set `display: block` and reposition.  The commit/hover callbacks wired
onto the items are modelled separately (`handleKeyNavigation`,
`updateSelection`). -/
def showOverlay (s : OverlayState) (users : List MentionUser) (anchor : Option Anchor) :
    OverlayState :=
  if s.created = false ∨ users = [] then s
  else
    let s1 := { s with selectedIndex := 0, currentSelectedIndex := 0,
                       lastKeyNavTime := 0, items := users.take 4, displayShown := true }
    (updateOverlayPosition s1 anchor).1

/-- Keys distinguished by `handleKeyNavigation`. -/
inductive KeyName
  | arrowDown
  | arrowUp
  | enter
  | escape
  | other
deriving DecidableEq

/-- Return value of `handleKeyNavigation`: JS `false`, JS `true`, or the
selected item's `userData` (returned on Enter). -/
inductive HKNRet
  | notHandled
  | handled
  | item (u : MentionUser)
deriving DecidableEq

/-- Observable outcome of one `handleKeyNavigation` call: the returned value
and whether `preventDefault()` was invoked on the event. -/
structure NavOut where
  ret : HKNRet
  prevented : Bool
deriving DecidableEq

/-- Validate-selectedIndex block at the top of `handleKeyNavigation`
(src/utils/dom.js:1276-1282): when the two selection variables disagree and
`currentSelectedIndex` is in range, sync `selectedIndex` to it and refresh
the selection. -/
def syncSelection (s : OverlayState) : OverlayState :=
  if s.selectedIndex ≠ s.currentSelectedIndex ∧ s.items ≠ [] then
    if 0 ≤ s.currentSelectedIndex ∧ s.currentSelectedIndex < (s.items.length : Int) then
      updateSelection { s with selectedIndex := s.currentSelectedIndex }
    else s
  else s

/-- Embedding of `handleKeyNavigation(e)` (src/utils/dom.js:1266-1342),
including the `KEY_NAV_DELAY = 200` debounce, the defensive
`selectedIndex`/`currentSelectedIndex` sync block, and the cyclic arrow
navigation (`%` is JS truncating remainder, `Int.tmod`). -/
def handleKeyNavigation (s : OverlayState) (k : KeyName) (now : Int) :
    OverlayState × NavOut :=
  if s.created = false ∨ isOverlayVisible s = false ∨ s.items = [] then
    (s, ⟨HKNRet.notHandled, false⟩)
  else
    let s1 := syncSelection s
    if now - s1.lastKeyNavTime < 200 ∧ (k = KeyName.arrowDown ∨ k = KeyName.arrowUp) then
      (s1, ⟨HKNRet.handled, true⟩)
    else
      match k with
      | KeyName.arrowDown =>
        if 1 < s1.items.length then
          let newIndex := (s1.selectedIndex + 1).tmod (s1.items.length : Int)
          if newIndex ≠ s1.selectedIndex then
            let s2 := updateSelection
              { s1 with selectedIndex := newIndex, currentSelectedIndex := newIndex }
            ({ s2 with lastKeyNavTime := now }, ⟨HKNRet.handled, true⟩)
          else (s1, ⟨HKNRet.handled, true⟩)
        else (s1, ⟨HKNRet.handled, true⟩)
      | KeyName.arrowUp =>
        if 1 < s1.items.length then
          let newIndex := (s1.selectedIndex - 1 + (s1.items.length : Int)).tmod
            (s1.items.length : Int)
          if newIndex ≠ s1.selectedIndex then
            let s2 := updateSelection
              { s1 with selectedIndex := newIndex, currentSelectedIndex := newIndex }
            ({ s2 with lastKeyNavTime := now }, ⟨HKNRet.handled, true⟩)
          else (s1, ⟨HKNRet.handled, true⟩)
        else (s1, ⟨HKNRet.handled, true⟩)
      | KeyName.enter =>
        if s1.selectedIndex < 0 then (s1, ⟨HKNRet.notHandled, true⟩)
        else
          match s1.items.get? s1.selectedIndex.toNat with
          | some u => (s1, ⟨HKNRet.item u, true⟩)
          | none => (s1, ⟨HKNRet.notHandled, true⟩)
      | KeyName.escape => ((hideOverlay s1).1, ⟨HKNRet.handled, true⟩)
      | KeyName.other => (s1, ⟨HKNRet.notHandled, false⟩)

/-- Trace of `handleKeyNavigation` over a sequence of key events (key paired
with its `Date.now()` reading), recording each post-state and outcome. -/
def navTrace (s : OverlayState) : List (KeyName × Int) → List (OverlayState × NavOut)
  | [] => []
  | e :: rest =>
    let r := handleKeyNavigation s e.1 e.2
    r :: navTrace r.1 rest

/-- Number of events in a trace whose post-state selection differs from the
selection before the event. -/
def selChanges (prev : Int) : List OverlayState → Nat
  | [] => 0
  | s :: rest => (if s.selectedIndex = prev then 0 else 1) + selChanges s.selectedIndex rest

/-- Reachable-state invariant of the overlay module while the overlay is
showing: established by `showOverlay` and maintained by every operation. -/
def NavInv (s : OverlayState) : Prop :=
  s.created = true ∧ s.displayShown = true ∧ s.items ≠ [] ∧
    s.selectedIndex = s.currentSelectedIndex ∧
    0 ≤ s.selectedIndex ∧ s.selectedIndex < (s.items.length : Int)

/-- Specified overlay-state invariant (claim C7): the selection is in range
whenever there are items, and a visible overlay has items. -/
def OverlayInv (s : OverlayState) : Prop :=
  (s.items ≠ [] → 0 ≤ s.selectedIndex ∧ s.selectedIndex < (s.items.length : Int)) ∧
    (isOverlayVisible s = true → s.items ≠ [])

instance (s : OverlayState) : Decidable (OverlayInv s) := by
  unfold OverlayInv
  exact inferInstance

/-- Event kinds wired by `activateInput`. -/
inductive EvKind
  | keyup
  | input
  | blur
deriving DecidableEq

/-- One candidate input element on the page: its id, its
`dataset.mentionEnhanced` flag, and its registered event listeners.  A
listener is a pair of event kind and handler identity; per the DOM
specification `addEventListener` ignores a registration whose (type,
callback) pair is already present, and two JS closures created by separate
calls are distinct callbacks.  The named module-level handlers `onKeyUp` and
`onInput` are handler 0 and 1; each anonymous blur arrow function gets a
fresh identity ≥ 2. -/
structure PageInput where
  elemId : Option (List Char)
  enhanced : List Char
  listeners : List (EvKind × Nat)
deriving DecidableEq

/-- DOM `addEventListener`: add the (kind, handler) pair unless it is already
registered. -/
def addEventListener (ls : List (EvKind × Nat)) (k : EvKind) (h : Nat) :
    List (EvKind × Nat) :=
  if (k, h) ∈ ls then ls else ls ++ [(k, h)]

/-- Embedding of `activateInput(input)` (src/content_script.js:541-560): mark
the element enhanced and register the keyup, input and blur listeners.
`blurId` is the identity of the freshly created anonymous blur closure. -/
def activateInput (e : PageInput) (blurId : Nat) : PageInput :=
  { e with enhanced := "true".toList,
           listeners :=
             addEventListener
               (addEventListener (addEventListener e.listeners EvKind.keyup 0) EvKind.input 1)
               EvKind.blur blurId }

/-- Embedding of `scanInputs()` (src/content_script.js:565-579): every
candidate input whose id equals the focused element's id is activated (a
fresh blur closure is allocated per activation, threaded through `fresh`);
the others get `mentionEnhanced = 'false'`. -/
def scanInputs (inputs : List PageInput) (activeId : Option (List Char)) (fresh : Nat) :
    List PageInput × Nat :=
  match inputs with
  | [] => ([], fresh)
  | e :: rest =>
    if e.elemId = activeId then
      let e1 := activateInput e fresh
      let r := scanInputs rest activeId (fresh + 1)
      (e1 :: r.1, r.2)
    else
      let r := scanInputs rest activeId fresh
      ({ e with enhanced := "false".toList } :: r.1, r.2)

/-- Number of listeners of a given kind registered on an element. -/
def countListeners (e : PageInput) (k : EvKind) : Nat :=
  (e.listeners.filter (fun l => decide (l.1 = k))).length

/-- Data captured by the mention branch of `onKeyUp` before it awaits the
Data Provider (`getUsersForSuggestions()`): the mention query and the
already-computed command scan, both read from the keystroke-time text. -/
structure Pending where
  query : List Char
  commandInfo : Option CommandInfo
deriving DecidableEq

/-- Shared mutable state of the content script that the keyup handler
touches: the overlay module state and `mentionStartPos`. -/
structure GState where
  dom : OverlayState
  mentionStartPos : Option Int
deriving DecidableEq

/-- Conversion of a filtered command entry to the overlay item shape
(src/content_script.js:489-494): `name: cmd.description || cmd.command`. -/
def commandEntryToItem (c : CommandEntry) : MentionUser :=
  { username := c.command,
    name := if c.description = [] then c.command else c.description,
    isCommand := true, avatar := none, emoji := c.emoji }

/-- Synchronous part of the trigger-processing tail of `onKeyUp`
(src/content_script.js:446-513), for an allowed non-Enter, non-Escape key
that the overlay did not consume.  Both scans run against the keystroke-time
text and cursor.  When a mention trigger is found, `mentionStartPos` is set
and the handler suspends on `await getUsersForSuggestions()`, returning the
captured `Pending`; otherwise the command branch and the final
`hideOverlay()` run synchronously. -/
def onKeyUpSync (g : GState) (text : List Char) (cursor : Nat)
    (customCommands : List (List Char × CommandData)) (anchor : Option Anchor) :
    GState × Option Pending :=
  let mq := scanForTrigger text cursor
  let ci := scanForCommand text cursor
  match mq with
  | some q =>
    ({ g with mentionStartPos := some ((cursor : Int) - (q.length : Int) - 1) },
     some { query := q, commandInfo := ci })
  | none =>
    match ci with
    | some c =>
      let cms := filterCommands (getAvailableCommands customCommands) c.query
      if cms ≠ [] then
        ({ g with dom := showOverlay g.dom (cms.map commandEntryToItem) anchor }, none)
      else ({ g with dom := (hideOverlay g.dom).1 }, none)
    | none => ({ g with dom := (hideOverlay g.dom).1 }, none)

/-- Continuation of `onKeyUp` after the awaited Data Provider call resolves
with `users`: filter with the query captured in `Pending` (the current text
is not re-read and the trigger context is not re-validated), show the overlay
on a non-empty match list, else fall through to the captured command scan and
finally `hideOverlay()`. -/
def onKeyUpCont (g : GState) (p : Pending) (users : List MentionUser)
    (githubUsernames : List (List Char)) (customCommands : List (List Char × CommandData))
    (anchor : Option Anchor) : GState :=
  let ms := filterUsers users p.query githubUsernames
  if ms ≠ [] then { g with dom := showOverlay g.dom ms anchor }
  else
    match p.commandInfo with
    | some c =>
      let cms := filterCommands (getAvailableCommands customCommands) c.query
      if cms ≠ [] then { g with dom := showOverlay g.dom (cms.map commandEntryToItem) anchor }
      else { g with dom := (hideOverlay g.dom).1 }
    | none => { g with dom := (hideOverlay g.dom).1 }

/-- Fixture: a plain user whose username and display name are both `u`. -/
def mkUser (u : String) : MentionUser :=
  ⟨u.toList, u.toList, false, none, none⟩

/-- Fixture: eight host-page suggestion usernames. -/
def ghEight : List (List Char) :=
  ["h1", "h2", "h3", "h4", "h5", "h6", "h7", "h8"].map String.toList

/-- Fixture: five host-page suggestion usernames. -/
def ghFive : List (List Char) :=
  ["h1", "h2", "h3", "h4", "h5"].map String.toList

/-- Fixture: ten candidate users all matching the query `ua`. -/
def tenMatching : List MentionUser :=
  ["ua0", "ua1", "ua2", "ua3", "ua4", "ua5", "ua6", "ua7", "ua8", "ua9"].map mkUser

/-- Fixture: a created, visible overlay holding four items with selection 0,
as `showOverlay` leaves it. -/
def navDemoState : OverlayState :=
  ⟨true, true, false, false, 0, 0, 0, [mkUser "a", mkUser "b", mkUser "c", mkUser "d"], 0, 0, 0⟩

/-- Fixture: five ArrowDown key events delivered within a 200ms window. -/
def fiveDowns : List (KeyName × Int) :=
  [(KeyName.arrowDown, 1000), (KeyName.arrowDown, 1040), (KeyName.arrowDown, 1080),
   (KeyName.arrowDown, 1120), (KeyName.arrowDown, 1160)]

/-- Fixture: a created but hidden, empty overlay, as `createOverlay` leaves
it at initialization. -/
def overlayInit : OverlayState :=
  ⟨true, false, false, false, 0, 0, 0, [], 0, 0, 0⟩

/-- Fixture: initial content-script state. -/
def gInit : GState :=
  ⟨overlayInit, none⟩

/-- The backward scan succeeds exactly when the reversed slice starts with a
run of word characters followed by the trigger character; the produced query
is that run, re-reversed, in front of the accumulator. -/
theorem triggerScanAux_eq_some (trigger : Char) (htr : isWordChar trigger = false) :
    ∀ r acc q : List Char,
      triggerScanAux trigger r acc = some q ↔
        ∃ w rest, r = w ++ trigger :: rest ∧ (∀ c ∈ w, isWordChar c = true) ∧
          q = w.reverse ++ acc := by
  intro r
  induction r with
  | nil =>
    intro acc q
    simp [triggerScanAux]
  | cons c rest ih =>
    intro acc q
    by_cases hc : isWordChar c = true
    · rw [triggerScanAux, if_pos hc, ih]
      constructor
      · rintro ⟨w, rst, hr, hw, hq⟩
        refine ⟨c :: w, rst, by simp [hr], ?_, by simp [hq]⟩
        intro x hx
        rcases List.mem_cons.mp hx with rfl | hx
        · exact hc
        · exact hw x hx
      · rintro ⟨w, rst, hr, hw, hq⟩
        cases w with
        | nil =>
          exfalso
          simp only [List.nil_append, List.cons.injEq] at hr
          rw [hr.1, htr] at hc
          exact Bool.false_ne_true hc
        | cons a w2 =>
          simp only [List.cons_append, List.cons.injEq] at hr
          refine ⟨w2, rst, hr.2, fun x hx => hw x (List.mem_cons_of_mem a hx), ?_⟩
          rw [hq, ← hr.1]
          simp
    · rw [triggerScanAux, if_neg hc]
      by_cases he : c = trigger
      · subst he
        rw [if_pos rfl]
        constructor
        · intro h
          refine ⟨[], rest, by simp, by simp, ?_⟩
          simpa using (Option.some.injEq .. ▸ h).symm
        · rintro ⟨w, rst, hr, hw, hq⟩
          cases w with
          | nil =>
            simp only [List.nil_append, List.cons.injEq] at hr
            simp [hq]
          | cons a w2 =>
            exfalso
            simp only [List.cons_append, List.cons.injEq] at hr
            have := hw a (List.mem_cons_self a w2)
            rw [← hr.1] at this
            exact hc this
      · rw [if_neg he]
        constructor
        · intro h
          exact absurd h (by simp)
        · rintro ⟨w, rst, hr, hw, hq⟩
          exfalso
          cases w with
          | nil =>
            simp only [List.nil_append, List.cons.injEq] at hr
            exact he hr.1
          | cons a w2 =>
            simp only [List.cons_append, List.cons.injEq] at hr
            have := hw a (List.mem_cons_self a w2)
            rw [← hr.1] at this
            exact hc this

/-- The mention scanner succeeds exactly when the text before the cursor ends
with `@` followed by a (possibly empty) run of word characters — the returned
query. -/
theorem scanForTrigger_iff (text : List Char) (pos : Nat) (q : List Char) :
    scanForTrigger text pos = some q ↔
      ∃ pre, text.take pos = pre ++ '@' :: q ∧ ∀ c ∈ q, isWordChar c = true := by
  rw [scanForTrigger, triggerScanAux_eq_some '@' (by decide)]
  constructor
  · rintro ⟨w, rst, hr, hw, hq⟩
    have hr2 : text.take pos = rst.reverse ++ '@' :: w.reverse := by
      have := congrArg List.reverse hr
      rw [List.reverse_reverse] at this
      rw [this]
      simp
    refine ⟨rst.reverse, ?_, ?_⟩
    · rw [hr2, hq]
      simp
    · intro c hc
      rw [hq] at hc
      simp only [List.append_nil, List.mem_reverse] at hc
      exact hw c hc
  · rintro ⟨pre, hpre, hw⟩
    refine ⟨q.reverse, pre.reverse, ?_, ?_, by simp⟩
    · rw [hpre]
      simp
    · intro c hc
      exact hw c (List.mem_reverse.mp hc)

/-- The command scanner succeeds exactly when the text before the cursor ends
with `!` followed by a run of word characters, and it always returns the same
string as both command and query. -/
theorem scanForCommand_iff (text : List Char) (pos : Nat) (q : List Char) :
    (scanForCommand text pos = some ⟨q, q⟩ ↔
      ∃ pre, text.take pos = pre ++ '!' :: q ∧ ∀ c ∈ q, isWordChar c = true) ∧
    ∀ ci, scanForCommand text pos = some ci → ci.command = ci.query := by
  constructor
  · rw [scanForCommand, show (∀ a, (Option.map (fun q => (⟨q, q⟩ : CommandInfo)) a = some ⟨q, q⟩ ↔ a = some q)) from ?_]
    · rw [triggerScanAux_eq_some '!' (by decide)]
      constructor
      · rintro ⟨w, rst, hr, hw, hq⟩
        have hr2 : text.take pos = rst.reverse ++ '!' :: w.reverse := by
          have := congrArg List.reverse hr
          rw [List.reverse_reverse] at this
          rw [this]
          simp
        refine ⟨rst.reverse, ?_, ?_⟩
        · rw [hr2, hq]
          simp
        · intro c hc
          rw [hq] at hc
          simp only [List.append_nil, List.mem_reverse] at hc
          exact hw c hc
      · rintro ⟨pre, hpre, hw⟩
        refine ⟨q.reverse, pre.reverse, ?_, ?_, by simp⟩
        · rw [hpre]
          simp
        · intro c hc
          exact hw c (List.mem_reverse.mp hc)
    · intro a
      cases a with
      | none => simp
      | some b =>
        simp only [Option.map_some', Option.some.injEq]
        constructor
        · intro h
          have := congrArg CommandInfo.query h
          simpa using this
        · intro h
          rw [h]
  · intro ci hci
    rw [scanForCommand] at hci
    cases h : triggerScanAux '!' (text.take pos).reverse [] with
    | none => rw [h] at hci; simp at hci
    | some b =>
      rw [h] at hci
      simp only [Option.map_some', Option.some.injEq] at hci
      rw [← hci]

/-- C1 counterexample: on the text `@a.` with the cursor at its end, the
maximal whitespace-free run containing the cursor is `@a.`, which contains an
unescaped `@`, yet both scanners return null (the `.` between the `@` and the
cursor is outside the `[a-zA-Z0-9-_]*` capture, so the regex does not match).
So trigger detection is not equivalent to the claimed token-run condition. -/
theorem scanTrigger_token_run_cex :
    ¬ (((scanForTrigger ("@a.".toList) 3).isSome = true ∨
        (scanForCommand ("@a.".toList) 3).isSome = true) ↔
       hasUnescapedTrigger (tokenRunAt ("@a.".toList) 3) = true) := by
  decide

/-- C1 (amended): `scanForTrigger` returns non-null iff the text before the
cursor ends with an unescaped-or-not `@` followed by a possibly empty run of
characters from `[a-zA-Z0-9-_]`, and the returned query is exactly that run
(the substring typed since the trigger character); `scanForCommand` behaves
the same for `!` and returns the run as both command and query.  Escaping and
characters after the cursor play no role. -/
theorem scanTrigger_char_run (text : List Char) (pos : Nat) (q : List Char) :
    (scanForTrigger text pos = some q ↔
      ∃ pre, text.take pos = pre ++ '@' :: q ∧ ∀ c ∈ q, isWordChar c = true) ∧
    (scanForCommand text pos = some ⟨q, q⟩ ↔
      ∃ pre, text.take pos = pre ++ '!' :: q ∧ ∀ c ∈ q, isWordChar c = true) ∧
    (∀ ci, scanForCommand text pos = some ci → ci.command = ci.query) :=
  ⟨scanForTrigger_iff text pos q, (scanForCommand_iff text pos q).1,
   (scanForCommand_iff text pos q).2⟩

/-- Filtering by two boolean predicates in sequence equals filtering by their
conjunction. -/
theorem filter_and_split {α : Type} (p q : α → Bool) (l : List α) :
    (l.filter p).filter q = l.filter (fun a => p a && q a) := by
  induction l with
  | nil => rfl
  | cons a t ih =>
    by_cases hp : p a <;> by_cases hq : q a <;>
      simp [List.filter_cons, hp, hq, ih]

/-- Slicing the empty list gives the empty list. -/
theorem jsSliceTo_nil {α : Type} (e : Int) : jsSliceTo ([] : List α) e = [] := by
  simp [jsSliceTo]

/-- C3: with an empty query `filterUsers` returns the empty list; with a
non-empty query it returns exactly the candidates that are not excluded by a
host-shown username (case-insensitively) and whose username or display name
contains the query case-insensitively, cut down by the code's item budget
`min(4, 7 - hostCount)`. -/
theorem filterUsers_query_filter_spec (users : List MentionUser)
    (githubUsernames : List (List Char)) (query : List Char) (hq : query ≠ []) :
    filterUsers users [] githubUsernames = [] ∧
    filterUsers users query githubUsernames =
      jsSliceTo
        (users.filter (fun u => !excludedByHost githubUsernames u && matchesQuery query u))
        (min 4 (7 - (githubUsernames.length : Int))) := by
  constructor
  · simp [filterUsers]
  · rw [filterUsers]
    by_cases hu : users = []
    · rw [if_pos hu, hu]
      simp [jsSliceTo_nil]
    · rw [if_neg hu, ← filter_and_split (fun u => !excludedByHost githubUsernames u)
        (fun u => matchesQuery query u) users]
      by_cases hf : users.filter (fun user => !excludedByHost githubUsernames user) = []
      · rw [if_pos hf, hf]
        simp [jsSliceTo_nil]
      · rw [if_neg hf, if_neg hq]

/-- C3 witness: evaluated on one concrete candidate, no host suggestions and
the concrete query `jo`. -/
theorem filterUsers_query_filter_spec_witness :
    filterUsers [mkUser "jonathan"] [] [] = [] ∧
    filterUsers [mkUser "jonathan"] ("jo".toList) [] =
      jsSliceTo
        ([mkUser "jonathan"].filter (fun u => !excludedByHost [] u && matchesQuery ("jo".toList) u))
        (min 4 (7 - (([] : List (List Char)).length : Int))) :=
  filterUsers_query_filter_spec [mkUser "jonathan"] [] ("jo".toList) (by decide)

/-- C4: with `mentionStartPos` computed by `onKeyUp` as
`cursor - query.length - 1`, committing a mention splices `@username ` over
the span from the trigger character (which indeed sits at that position) to
the cursor, puts the cursor right after the inserted space, and dispatches a
synthetic input event. -/
theorem insertMention_splices_at_trigger (inp : InputState) (username q : List Char)
    (hsel : inp.selectionStart ≤ inp.value.length)
    (h : scanForTrigger inp.value inp.selectionStart = some q) :
    (insertMention inp (inp.selectionStart - q.length - 1) username).1.value
      = inp.value.take (inp.selectionStart - q.length - 1)
        ++ '@' :: (username ++ ' ' :: inp.value.drop inp.selectionStart)
    ∧ (insertMention inp (inp.selectionStart - q.length - 1) username).1.selectionStart
      = inp.selectionStart - q.length - 1 + username.length + 2
    ∧ inp.value[inp.selectionStart - q.length - 1]? = some '@'
    ∧ (insertMention inp (inp.selectionStart - q.length - 1) username).2 = true := by
  obtain ⟨pre, hpre, hw⟩ := (scanForTrigger_iff inp.value inp.selectionStart q).mp h
  have htl : (inp.value.take inp.selectionStart).length = inp.selectionStart := by
    simp [List.length_take, Nat.min_eq_left hsel]
  have hplen : pre.length + (q.length + 1) = inp.selectionStart := by
    have h2 := congrArg List.length hpre
    rw [htl] at h2
    simp only [List.length_append, List.length_cons] at h2
    omega
  have hms : inp.selectionStart - q.length - 1 = pre.length := by omega
  have hmle : inp.selectionStart - q.length - 1 ≤ inp.value.length := by omega
  refine ⟨?_, ?_, ?_, rfl⟩
  · simp [insertMention, List.append_assoc]
  · simp only [insertMention, List.length_append, List.length_cons, List.length_nil,
      List.length_take, Nat.min_eq_left hmle]
    omega
  · rw [hms, ← List.take_append_drop inp.selectionStart inp.value, hpre]
    rw [List.getElem?_append_left (by simp)]
    rw [List.getElem?_append_right le_rfl]
    simp

/-- C4 witness: committing user `jonathan` on `hi @jo` with the cursor at the
end yields `hi @jonathan ` with the cursor at position 13. -/
theorem insertMention_splices_at_trigger_witness :
    (insertMention ⟨"hi @jo".toList, 6, 6⟩ 3 ("jonathan".toList)).1.value
      = "hi @jonathan ".toList ∧
    (insertMention ⟨"hi @jo".toList, 6, 6⟩ 3 ("jonathan".toList)).1.selectionStart = 13 ∧
    ("hi @jo".toList)[(3 : Nat)]? = some '@' ∧
    (insertMention ⟨"hi @jo".toList, 6, 6⟩ 3 ("jonathan".toList)).2 = true := by
  have h := insertMention_splices_at_trigger ⟨"hi @jo".toList, 6, 6⟩ ("jonathan".toList)
    ("jo".toList) (by decide) (by decide)
  refine ⟨h.1.trans (by decide), h.2.1.trans (by decide), ?_, h.2.2.2⟩
  exact (by decide : (6 - ("jo".toList).length - 1 : Nat) = 3) ▸ h.2.2.1

/-- Repositioning the overlay only touches position and popover fields. -/
theorem updateOverlayPosition_fields (s : OverlayState) (anchor : Option Anchor) :
    (updateOverlayPosition s anchor).1.created = s.created ∧
    (updateOverlayPosition s anchor).1.displayShown = s.displayShown ∧
    (updateOverlayPosition s anchor).1.items = s.items ∧
    (updateOverlayPosition s anchor).1.selectedIndex = s.selectedIndex ∧
    (updateOverlayPosition s anchor).1.currentSelectedIndex = s.currentSelectedIndex ∧
    (updateOverlayPosition s anchor).1.lastKeyNavTime = s.lastKeyNavTime ∧
    (updateOverlayPosition s anchor).2 = false := by
  cases anchor with
  | none => exact ⟨rfl, rfl, rfl, rfl, rfl, rfl, rfl⟩
  | some a =>
    simp only [updateOverlayPosition]
    split_ifs <;> simp

/-- Hiding the overlay never lets an exception escape, always leaves it
invisible with an empty item list and selection 0, and preserves existence. -/
theorem hideOverlay_spec (s : OverlayState) :
    (hideOverlay s).2 = false ∧
    isOverlayVisible (hideOverlay s).1 = false ∧
    (hideOverlay s).1.created = s.created ∧
    ((hideOverlay s).1.items = [] ∨ (hideOverlay s).1 = s) := by
  unfold hideOverlay isOverlayVisible
  split_ifs with h1 h2
  · simp [h1]
  · simp
  · simp only [Bool.not_eq_true] at h2
    simp [h2]

/-- Showing a non-empty list on a created overlay makes it visible, renders
the first four users and resets the selection. -/
theorem showOverlay_spec (s : OverlayState) (users : List MentionUser) (anchor : Option Anchor)
    (hc : s.created = true) (hu : users ≠ []) :
    isOverlayVisible (showOverlay s users anchor) = true ∧
    (showOverlay s users anchor).items = users.take 4 ∧
    (showOverlay s users anchor).selectedIndex = 0 ∧
    (showOverlay s users anchor).currentSelectedIndex = 0 ∧
    (showOverlay s users anchor).created = true := by
  have hg : ¬ (s.created = false ∨ users = []) := by simp [hc, hu]
  unfold showOverlay
  rw [if_neg hg]
  obtain ⟨f1, f2, f3, f4, f5, f6, f7⟩ := updateOverlayPosition_fields
    { s with selectedIndex := 0, currentSelectedIndex := 0, lastKeyNavTime := 0,
             items := users.take 4, displayShown := true } anchor
  refine ⟨?_, by rw [f3], by rw [f4], by rw [f5], by rw [f1]; exact hc⟩
  unfold isOverlayVisible
  rw [f1, f2]
  simp [hc]

/-- Refreshing the selection only touches the two selection fields. -/
theorem updateSelection_fields (s : OverlayState) :
    (updateSelection s).created = s.created ∧
    (updateSelection s).displayShown = s.displayShown ∧
    (updateSelection s).popoverOpen = s.popoverOpen ∧
    (updateSelection s).items = s.items ∧
    (updateSelection s).lastKeyNavTime = s.lastKeyNavTime := by
  unfold updateSelection
  split_ifs <;> exact ⟨rfl, rfl, rfl, rfl, rfl⟩

/-- Selection refresh: out-of-range selections reset to 0, in-range ones stay
put, and the two selection fields agree afterwards. -/
theorem updateSelection_sel (s : OverlayState) :
    ((s.selectedIndex < 0 ∨ (s.items.length : Int) ≤ s.selectedIndex) →
      (updateSelection s).selectedIndex = 0) ∧
    (¬ (s.selectedIndex < 0 ∨ (s.items.length : Int) ≤ s.selectedIndex) →
      (updateSelection s).selectedIndex = s.selectedIndex) ∧
    (updateSelection s).currentSelectedIndex = (updateSelection s).selectedIndex := by
  by_cases h : s.selectedIndex < 0 ∨ (s.items.length : Int) ≤ s.selectedIndex
  · unfold updateSelection
    rw [if_pos h]
    exact ⟨fun _ => rfl, fun h2 => absurd h h2, rfl⟩
  · unfold updateSelection
    rw [if_neg h]
    exact ⟨fun h2 => absurd h2 h, fun _ => rfl, rfl⟩

/-- Selection refresh preserves the overlay invariant. -/
theorem updateSelection_inv (s : OverlayState) (hinv : OverlayInv s) :
    OverlayInv (updateSelection s) := by
  obtain ⟨f1, f2, f3, f4, f5⟩ := updateSelection_fields s
  obtain ⟨g1, g2, _⟩ := updateSelection_sel s
  have hvis : isOverlayVisible (updateSelection s) = isOverlayVisible s := by
    unfold isOverlayVisible
    rw [f1, f2, f3]
  constructor
  · intro hne
    rw [f4] at hne
    rw [f4]
    by_cases h : s.selectedIndex < 0 ∨ (s.items.length : Int) ≤ s.selectedIndex
    · rw [g1 h]
      have hlen : 0 < s.items.length := List.length_pos.mpr hne
      exact ⟨le_refl 0, by exact_mod_cast hlen⟩
    · rw [g2 h]
      push_neg at h
      exact ⟨not_lt.mp (by simpa using h.1), h.2⟩
  · intro hv
    rw [f4]
    exact hinv.2 (hvis ▸ hv)

/-- When the two selection variables already agree, the defensive sync block
is a no-op. -/
theorem syncSelection_of_eq (s : OverlayState)
    (h : s.selectedIndex = s.currentSelectedIndex) : syncSelection s = s := by
  unfold syncSelection
  rw [if_neg (by simp [h])]

/-- The sync block only touches the two selection fields. -/
theorem syncSelection_fields (s : OverlayState) :
    (syncSelection s).created = s.created ∧
    (syncSelection s).displayShown = s.displayShown ∧
    (syncSelection s).popoverOpen = s.popoverOpen ∧
    (syncSelection s).items = s.items ∧
    (syncSelection s).lastKeyNavTime = s.lastKeyNavTime := by
  unfold syncSelection
  split_ifs with h1 h2
  · exact updateSelection_fields { s with selectedIndex := s.currentSelectedIndex }
  · exact ⟨rfl, rfl, rfl, rfl, rfl⟩
  · exact ⟨rfl, rfl, rfl, rfl, rfl⟩

/-- The sync block preserves the overlay invariant. -/
theorem syncSelection_inv (s : OverlayState) (hinv : OverlayInv s) :
    OverlayInv (syncSelection s) := by
  unfold syncSelection
  split_ifs with h1 h2
  · apply updateSelection_inv
    exact ⟨fun _ => ⟨h2.1, h2.2⟩, fun hv => hinv.2 hv⟩
  · exact hinv
  · exact hinv

/-- JS truncating remainder agrees with `Nat.mod` on natural inputs. -/
theorem tmod_coe (m n : Nat) : ((m : Int)).tmod (n : Int) = ((m % n : Nat) : Int) := rfl

/-- Advancing cyclically by one from an in-range selection lands in range and
moves (when there are at least two items). -/
theorem navDown_facts (sel len : Int) (h0 : 0 ≤ sel) (h1 : sel < len) (h2 : 1 < len) :
    0 ≤ (sel + 1).tmod len ∧ (sel + 1).tmod len < len ∧ (sel + 1).tmod len ≠ sel := by
  obtain ⟨a, rfl⟩ := Int.eq_ofNat_of_zero_le h0
  obtain ⟨n, rfl⟩ := Int.eq_ofNat_of_zero_le (h0.trans h1.le)
  have ha : a < n := by exact_mod_cast h1
  have hn : 1 < n := by exact_mod_cast h2
  have hcast : ((a : Int) + 1) = ((a + 1 : Nat) : Int) := by push_cast; ring
  rw [hcast, tmod_coe]
  by_cases hlt : a + 1 < n
  · rw [Nat.mod_eq_of_lt hlt]
    refine ⟨by positivity, by exact_mod_cast hlt, ?_⟩
    intro heq
    have : a + 1 = a := by exact_mod_cast heq
    omega
  · have he : a + 1 = n := by omega
    rw [he, Nat.mod_self]
    refine ⟨le_refl 0, by exact_mod_cast (by omega : 0 < n), ?_⟩
    intro heq
    have : (0 : Nat) = a := by exact_mod_cast heq
    omega

/-- Retreating cyclically by one from an in-range selection lands in range
and moves (when there are at least two items). -/
theorem navUp_facts (sel len : Int) (h0 : 0 ≤ sel) (h1 : sel < len) (h2 : 1 < len) :
    0 ≤ (sel - 1 + len).tmod len ∧ (sel - 1 + len).tmod len < len ∧
      (sel - 1 + len).tmod len ≠ sel := by
  obtain ⟨a, rfl⟩ := Int.eq_ofNat_of_zero_le h0
  obtain ⟨n, rfl⟩ := Int.eq_ofNat_of_zero_le (h0.trans h1.le)
  have ha : a < n := by exact_mod_cast h1
  have hn : 1 < n := by exact_mod_cast h2
  by_cases haz : a = 0
  · subst haz
    have hcast : ((0 : Nat) : Int) - 1 + (n : Int) = ((n - 1 : Nat) : Int) := by omega
    rw [hcast, tmod_coe, Nat.mod_eq_of_lt (by omega)]
    refine ⟨by positivity, by exact_mod_cast (by omega : n - 1 < n), ?_⟩
    intro heq
    have : n - 1 = 0 := by exact_mod_cast heq
    omega
  · have h1a : 1 ≤ a := by omega
    have hcast : (a : Int) - 1 + (n : Int) = ((a - 1 + n : Nat) : Int) := by omega
    rw [hcast, tmod_coe, Nat.add_mod_right, Nat.mod_eq_of_lt (by omega : a - 1 < n)]
    refine ⟨by positivity, by exact_mod_cast (by omega : a - 1 < n), ?_⟩
    intro heq
    have : a - 1 = a := by exact_mod_cast heq
    omega

/-- An arrow key arriving within 200ms of the last accepted navigation is
consumed (handled, default prevented) but changes nothing. -/
theorem hkn_debounced (s : OverlayState) (k : KeyName) (t : Int)
    (hinv : NavInv s) (hk : k = KeyName.arrowDown ∨ k = KeyName.arrowUp)
    (ht : t - s.lastKeyNavTime < 200) :
    handleKeyNavigation s k t = (s, ⟨HKNRet.handled, true⟩) := by
  obtain ⟨h1, h2, h3, h4, h5, h6⟩ := hinv
  have hvis : isOverlayVisible s = true := by simp [isOverlayVisible, h1, h2]
  have hs1 : syncSelection s = s := syncSelection_of_eq s h4
  unfold handleKeyNavigation
  rw [if_neg (by simp [h1, hvis, h3])]
  simp only [hs1]
  rw [if_pos ⟨ht, hk⟩]

/-- One arrow event on a well-formed showing overlay is always consumed, and
either leaves the state untouched or performs one accepted navigation that
stamps the debounce clock with the event time. -/
theorem hkn_arrow_step (s : OverlayState) (k : KeyName) (t : Int)
    (hinv : NavInv s) (hk : k = KeyName.arrowDown ∨ k = KeyName.arrowUp) :
    (handleKeyNavigation s k t).2 = ⟨HKNRet.handled, true⟩ ∧
    ((handleKeyNavigation s k t).1 = s ∨
      (NavInv (handleKeyNavigation s k t).1 ∧
        (handleKeyNavigation s k t).1.lastKeyNavTime = t)) := by
  by_cases ht : t - s.lastKeyNavTime < 200
  · rw [hkn_debounced s k t hinv hk ht]
    exact ⟨rfl, Or.inl rfl⟩
  · obtain ⟨h1, h2, h3, h4, h5, h6⟩ := hinv
    obtain ⟨cr, ds, po, pa, pl, pt, pw, its, sel, cur, lk⟩ := s
    dsimp only at h1 h2 h3 h4 h5 h6 ht
    subst h1 h2 h4
    have hvis : isOverlayVisible ⟨true, true, po, pa, pl, pt, pw, its, sel, sel, lk⟩ = true := by
      simp [isOverlayVisible]
    rcases hk with rfl | rfl
    · by_cases hl : 1 < its.length
      · have hfacts := navDown_facts sel (its.length : Int) h5 h6 (by exact_mod_cast hl)
        have heval : handleKeyNavigation ⟨true, true, po, pa, pl, pt, pw, its, sel, sel, lk⟩
            KeyName.arrowDown t =
            (⟨true, true, po, pa, pl, pt, pw, its, (sel + 1).tmod (its.length : Int),
              (sel + 1).tmod (its.length : Int), t⟩, ⟨HKNRet.handled, true⟩) := by
          simp [handleKeyNavigation, syncSelection, updateSelection, isOverlayVisible,
            h3, ht, hl, hfacts.2.2, not_lt.mpr hfacts.1, not_le.mpr hfacts.2.1]
        rw [heval]
        refine ⟨rfl, Or.inr ⟨⟨rfl, rfl, h3, rfl, hfacts.1, ?_⟩, rfl⟩⟩
        exact hfacts.2.1
      · have heval : handleKeyNavigation ⟨true, true, po, pa, pl, pt, pw, its, sel, sel, lk⟩
            KeyName.arrowDown t =
            (⟨true, true, po, pa, pl, pt, pw, its, sel, sel, lk⟩, ⟨HKNRet.handled, true⟩) := by
          simp [handleKeyNavigation, syncSelection, isOverlayVisible, h3, ht, hl]
        rw [heval]
        exact ⟨rfl, Or.inl rfl⟩
    · by_cases hl : 1 < its.length
      · have hfacts := navUp_facts sel (its.length : Int) h5 h6 (by exact_mod_cast hl)
        have heval : handleKeyNavigation ⟨true, true, po, pa, pl, pt, pw, its, sel, sel, lk⟩
            KeyName.arrowUp t =
            (⟨true, true, po, pa, pl, pt, pw, its, (sel - 1 + (its.length : Int)).tmod (its.length : Int),
              (sel - 1 + (its.length : Int)).tmod (its.length : Int), t⟩, ⟨HKNRet.handled, true⟩) := by
          simp [handleKeyNavigation, syncSelection, updateSelection, isOverlayVisible,
            h3, ht, hl, hfacts.2.2, not_lt.mpr hfacts.1, not_le.mpr hfacts.2.1]
        rw [heval]
        refine ⟨rfl, Or.inr ⟨⟨rfl, rfl, h3, rfl, hfacts.1, ?_⟩, rfl⟩⟩
        exact hfacts.2.1
      · have heval : handleKeyNavigation ⟨true, true, po, pa, pl, pt, pw, its, sel, sel, lk⟩
            KeyName.arrowUp t =
            (⟨true, true, po, pa, pl, pt, pw, its, sel, sel, lk⟩, ⟨HKNRet.handled, true⟩) := by
          simp [handleKeyNavigation, syncSelection, isOverlayVisible, h3, ht, hl]
        rw [heval]
        exact ⟨rfl, Or.inl rfl⟩

/-- A whole burst of arrow events that all fall inside the debounce window of
the current state is wholly inert: every event is consumed and no state
changes. -/
theorem navTrace_all_debounced : ∀ (evs : List (KeyName × Int)) (s : OverlayState),
    NavInv s →
    (∀ e ∈ evs, (e.1 = KeyName.arrowDown ∨ e.1 = KeyName.arrowUp) ∧
      e.2 - s.lastKeyNavTime < 200) →
    navTrace s evs = evs.map (fun _ => (s, ⟨HKNRet.handled, true⟩)) := by
  intro evs
  induction evs with
  | nil => intro s _ _; rfl
  | cons e rest ih =>
    intro s hinv hev
    have h := hev e (List.mem_cons_self e rest)
    have hstep := hkn_debounced s e.1 e.2 hinv h.1 h.2
    show (handleKeyNavigation s e.1 e.2)
        :: navTrace (handleKeyNavigation s e.1 e.2).1 rest = _
    rw [hstep]
    simp only [List.map_cons]
    exact congrArg _ (ih s hinv (fun e2 he2 => hev e2 (List.mem_cons_of_mem e he2)))

/-- A trace whose states all carry the same selection records no changes. -/
theorem selChanges_const (i : Int) (l : List OverlayState)
    (h : ∀ x ∈ l, x.selectedIndex = i) : selChanges i l = 0 := by
  induction l with
  | nil => rfl
  | cons x rest ih =>
    have hx := h x (List.mem_cons_self x rest)
    simp [selChanges, hx, ih (fun y hy => h y (List.mem_cons_of_mem x hy))]

/-- Burst lemma: arrow events all falling in one 200ms window change the
selection at most once and are all consumed. -/
theorem navTrace_burst : ∀ (evs : List (KeyName × Int)) (s : OverlayState) (t0 : Int),
    NavInv s →
    (∀ e ∈ evs, (e.1 = KeyName.arrowDown ∨ e.1 = KeyName.arrowUp) ∧
      t0 ≤ e.2 ∧ e.2 < t0 + 200) →
    selChanges s.selectedIndex ((navTrace s evs).map Prod.fst) ≤ 1 ∧
    (∀ r ∈ (navTrace s evs).map Prod.snd, r = ⟨HKNRet.handled, true⟩) := by
  intro evs
  induction evs with
  | nil =>
    intro s t0 _ _
    exact ⟨by simp [navTrace, selChanges], by simp [navTrace]⟩
  | cons e rest ih =>
    intro s t0 hinv hev
    have he := hev e (List.mem_cons_self e rest)
    obtain ⟨hout, hcase⟩ := hkn_arrow_step s e.1 e.2 hinv he.1
    rcases hcase with heq | ⟨hinv2, hlast⟩
    · have hr : handleKeyNavigation s e.1 e.2 = (s, ⟨HKNRet.handled, true⟩) := by
        have hpair : handleKeyNavigation s e.1 e.2
            = ((handleKeyNavigation s e.1 e.2).1, (handleKeyNavigation s e.1 e.2).2) := rfl
        rw [hpair, heq, hout]
      obtain ⟨ih1, ih2⟩ := ih s t0 hinv (fun e2 he2 => hev e2 (List.mem_cons_of_mem e he2))
      constructor
      · simp only [navTrace, hr, List.map_cons]
        simpa [selChanges] using ih1
      · intro r hrm
        simp only [navTrace, hr, List.map_cons, List.mem_cons] at hrm
        rcases hrm with rfl | hrm
        · rfl
        · exact ih2 r hrm
    · have hr : handleKeyNavigation s e.1 e.2
          = ((handleKeyNavigation s e.1 e.2).1, ⟨HKNRet.handled, true⟩) := by
        rw [← hout]
      have hdeb : ∀ e2 ∈ rest, (e2.1 = KeyName.arrowDown ∨ e2.1 = KeyName.arrowUp) ∧
          e2.2 - (handleKeyNavigation s e.1 e.2).1.lastKeyNavTime < 200 := by
        intro e2 he2
        have h2 := hev e2 (List.mem_cons_of_mem e he2)
        refine ⟨h2.1, ?_⟩
        rw [hlast]
        have ha := he.2.1
        have hb := h2.2.2
        omega
      have htr := navTrace_all_debounced rest (handleKeyNavigation s e.1 e.2).1 hinv2 hdeb
      constructor
      · simp only [navTrace, htr, List.map_cons, List.map_map]
        have h0 := selChanges_const (handleKeyNavigation s e.1 e.2).1.selectedIndex
          (rest.map (Prod.fst ∘ fun _ => ((handleKeyNavigation s e.1 e.2).1,
            (⟨HKNRet.handled, true⟩ : NavOut))))
          (by
            intro x hx
            rcases List.mem_map.mp hx with ⟨y, _, rfl⟩
            rfl)
        simp only [selChanges, h0]
        split <;> omega
      · intro r hrm
        simp only [navTrace, htr, List.map_cons, List.map_map, List.mem_cons] at hrm
        rcases hrm with rfl | hrm
        · exact hout
        · rcases List.mem_map.mp hrm with ⟨y, _, rfl⟩
          rfl

/-- Stamping the debounce clock does not affect the overlay invariant. -/
theorem overlayInv_lastNav (x : OverlayState) (t : Int) (h : OverlayInv x) :
    OverlayInv { x with lastKeyNavTime := t } := by
  obtain ⟨a, b⟩ := h
  exact ⟨a, b⟩

/-- Key navigation preserves the overlay-state invariant for every key. -/
theorem hkn_preserves_inv (s : OverlayState) (k : KeyName) (t : Int) (hinv : OverlayInv s) :
    OverlayInv (handleKeyNavigation s k t).1 := by
  by_cases hg : s.created = false ∨ isOverlayVisible s = false ∨ s.items = []
  · have hres : handleKeyNavigation s k t = (s, ⟨HKNRet.notHandled, false⟩) := by
      unfold handleKeyNavigation
      rw [if_pos hg]
    rw [hres]
    exact hinv
  · push_neg at hg
    obtain ⟨hg1, hg2, hg3⟩ := hg
    have hc : s.created = true := by simpa using hg1
    have hvis : isOverlayVisible s = true := by simpa using hg2
    have hinv1 := syncSelection_inv s hinv
    obtain ⟨sf1, sf2, sf3, sf4, sf5⟩ := syncSelection_fields s
    have hvis1 : isOverlayVisible (syncSelection s) = true := by
      unfold isOverlayVisible at hvis ⊢
      rw [sf1, sf2, sf3]
      exact hvis
    have hitems1 : (syncSelection s).items ≠ [] := by rw [sf4]; exact hg3
    have hb := hinv1.1 hitems1
    simp only [handleKeyNavigation]
    rw [if_neg (by simp [hc, hvis, hg3])]
    by_cases hdb : t - (syncSelection s).lastKeyNavTime < 200 ∧
        (k = KeyName.arrowDown ∨ k = KeyName.arrowUp)
    · rw [if_pos hdb]
      exact hinv1
    · rw [if_neg hdb]
      cases k with
      | arrowDown =>
        by_cases hl : 1 < (syncSelection s).items.length
        · have hfacts := navDown_facts (syncSelection s).selectedIndex
            ((syncSelection s).items.length : Int) hb.1 hb.2 (by exact_mod_cast hl)
          rw [if_pos hl]
          rw [if_pos hfacts.2.2]
          exact overlayInv_lastNav _ t
            (updateSelection_inv _ ⟨fun _ => ⟨hfacts.1, hfacts.2.1⟩, fun _ => hitems1⟩)
        · rw [if_neg hl]
          exact hinv1
      | arrowUp =>
        dsimp only
        by_cases hl : 1 < (syncSelection s).items.length
        · have hfacts := navUp_facts (syncSelection s).selectedIndex
            ((syncSelection s).items.length : Int) hb.1 hb.2 (by exact_mod_cast hl)
          rw [if_pos hl]
          rw [if_pos hfacts.2.2]
          have hres := updateSelection_inv
            { syncSelection s with
              selectedIndex := ((syncSelection s).selectedIndex - 1
                + ((syncSelection s).items.length : Int)).tmod
                ((syncSelection s).items.length : Int),
              currentSelectedIndex := ((syncSelection s).selectedIndex - 1
                + ((syncSelection s).items.length : Int)).tmod
                ((syncSelection s).items.length : Int) }
            ⟨fun _ => ⟨hfacts.1, hfacts.2.1⟩, fun _ => hitems1⟩
          exact overlayInv_lastNav _ t hres
        · rw [if_neg hl]
          exact hinv1
      | enter =>
        by_cases hneg : (syncSelection s).selectedIndex < 0
        · rw [if_pos hneg]
          exact hinv1
        · rw [if_neg hneg]
          cases hget : (syncSelection s).items.get? (syncSelection s).selectedIndex.toNat with
          | some u =>
            simp only [hget]
            exact hinv1
          | none =>
            simp only [hget]
            exact hinv1
      | escape =>
        obtain ⟨_, hv, _, hcase⟩ := hideOverlay_spec (syncSelection s)
        rcases hcase with hitems | hsame
        · exact ⟨fun hne => absurd hitems hne, fun hv2 => absurd (hv.symm.trans hv2) (by simp)⟩
        · rw [hsame]
          exact hinv1
      | other => exact hinv1

/-- C7: showing, hiding, key navigation and selection refresh all preserve
the overlay-state invariant (selection in range whenever items exist; a
visible overlay has items), and an out-of-range selection index is
self-healed to 0 by the selection refresh rather than raising. -/
theorem overlay_ops_preserve_invariant (s : OverlayState) (users : List MentionUser)
    (anchor : Option Anchor) (k : KeyName) (t : Int) (hinv : OverlayInv s) :
    OverlayInv (showOverlay s users anchor) ∧
    OverlayInv (hideOverlay s).1 ∧
    OverlayInv (handleKeyNavigation s k t).1 ∧
    OverlayInv (updateSelection s) ∧
    ((s.selectedIndex < 0 ∨ (s.items.length : Int) ≤ s.selectedIndex) →
      (updateSelection s).selectedIndex = 0) := by
  refine ⟨?_, ?_, hkn_preserves_inv s k t hinv, updateSelection_inv s hinv,
    (updateSelection_sel s).1⟩
  · by_cases hg : s.created = false ∨ users = []
    · unfold showOverlay
      rw [if_pos hg]
      exact hinv
    · push_neg at hg
      have hc : s.created = true := by simpa using hg.1
      obtain ⟨v1, v2, v3, v4, _⟩ := showOverlay_spec s users anchor hc hg.2
      constructor
      · intro hne
        rw [v3]
        refine ⟨le_refl 0, ?_⟩
        have : 0 < (showOverlay s users anchor).items.length := List.length_pos.mpr hne
        exact_mod_cast this
      · intro _
        rw [v2]
        cases users with
        | nil => exact absurd rfl hg.2
        | cons a l => simp
  · obtain ⟨_, hv, _, hcase⟩ := hideOverlay_spec s
    rcases hcase with hitems | hsame
    · exact ⟨fun hne => absurd hitems hne, fun hv2 => absurd (hv.symm.trans hv2) (by simp)⟩
    · rw [hsame]
      exact hinv

/-- C7 witness: all four operations evaluated on a concrete well-formed
visible overlay. -/
theorem overlay_ops_preserve_invariant_witness :
    OverlayInv (showOverlay navDemoState [mkUser "e"] none) ∧
    OverlayInv (hideOverlay navDemoState).1 ∧
    OverlayInv (handleKeyNavigation navDemoState KeyName.arrowDown 1000).1 ∧
    OverlayInv (updateSelection navDemoState) ∧
    ((navDemoState.selectedIndex < 0 ∨
        (navDemoState.items.length : Int) ≤ navDemoState.selectedIndex) →
      (updateSelection navDemoState).selectedIndex = 0) :=
  overlay_ops_preserve_invariant navDemoState [mkUser "e"] none KeyName.arrowDown 1000 (by decide)

/-- C5: on a visible overlay with a non-empty item list (and the two
selection variables in sync and in range, as every reachable state has
them), any sequence of ArrowDown/ArrowUp events whose times all fall in one
200ms window changes the selection index at most once, and every event in
the burst is consumed: reported handled with default prevented. -/
theorem keyNav_burst_debounce (s : OverlayState) (evs : List (KeyName × Int)) (t0 : Int)
    (hc : s.created = true) (hd : s.displayShown = true) (hi : s.items ≠ [])
    (hsync : s.selectedIndex = s.currentSelectedIndex)
    (h0 : 0 ≤ s.selectedIndex) (hlt : s.selectedIndex < (s.items.length : Int))
    (hev : ∀ e ∈ evs, (e.1 = KeyName.arrowDown ∨ e.1 = KeyName.arrowUp) ∧
      t0 ≤ e.2 ∧ e.2 < t0 + 200) :
    selChanges s.selectedIndex ((navTrace s evs).map Prod.fst) ≤ 1 ∧
    (∀ r ∈ (navTrace s evs).map Prod.snd, r = ⟨HKNRet.handled, true⟩) :=
  navTrace_burst evs s t0 ⟨hc, hd, hi, hsync, h0, hlt⟩ hev

/-- C5 witness: five ArrowDown events within 200ms on a four-item overlay
advance the selection at most once and are all consumed. -/
theorem keyNav_burst_debounce_witness :
    selChanges navDemoState.selectedIndex
      ((navTrace navDemoState fiveDowns).map Prod.fst) ≤ 1 ∧
    (∀ r ∈ (navTrace navDemoState fiveDowns).map Prod.snd,
      r = ⟨HKNRet.handled, true⟩) :=
  keyNav_burst_debounce navDemoState fiveDowns 1000 rfl rfl (by decide) rfl
    (by decide) (by decide) (by decide)

/-- C8 counterexample: calling the position update with a null anchor on a
visible overlay is an early-return no-op, so the overlay stays visible — it
does not leave `visible = false` as claimed. -/
theorem updatePosition_null_keeps_visible_cex :
    ¬ (isOverlayVisible (updateOverlayPosition navDemoState none).1 = false) := by
  decide

/-- C8 (amended): hiding the overlay twice in a row never lets an exception
escape and leaves it invisible after each call; calling the position update
with a null anchor never throws and returns with the state unchanged (so in
particular a hidden overlay stays hidden). -/
theorem hideTwice_and_nullAnchor_safe (s : OverlayState) :
    (hideOverlay s).2 = false ∧
    (hideOverlay (hideOverlay s).1).2 = false ∧
    isOverlayVisible (hideOverlay s).1 = false ∧
    isOverlayVisible (hideOverlay (hideOverlay s).1).1 = false ∧
    updateOverlayPosition s none = (s, false) :=
  ⟨(hideOverlay_spec s).1, (hideOverlay_spec (hideOverlay s).1).1,
   (hideOverlay_spec s).2.1, (hideOverlay_spec (hideOverlay s).1).2.1, rfl⟩

/-- C2 (code bug): the item budget `min(4, 7 - hostCount)` is not clamped to
0.  With 8 host suggestions the budget is -1 and `slice(0, -1)` returns all
but the last match, so with two matching candidates one item is still shown
and the combined count is 9 > 7, violating the 7-item total cap the code's
own comment asserts.  (With 5 host suggestions and 10 matches the budget
behaves as specified and exactly 2 items are shown.) -/
theorem filterUsers_budget_not_clamped :
    filterUsers [mkUser "ann", mkUser "amy"] ("a".toList) ghEight = [mkUser "ann"] ∧
    ghEight.length + (filterUsers [mkUser "ann", mkUser "amy"] ("a".toList) ghEight).length
      = 9 ∧
    (filterUsers tenMatching ("ua".toList) ghFive).length = 2 := by
  decide

/-- C6 counterexample: schedule the synchronous part of a keyup with trigger
`@jo` (which suspends awaiting the Data Provider), then a full keyup on the
edited text `hi ` with no trigger (which hides the overlay), then the first
keyup's continuation with the provider's users.  The continuation renders
the stale result: the overlay does not end hidden, contradicting the claim
that a stale response arriving after the trigger context changed is
discarded. -/
theorem stale_response_discarded_cex :
    ¬ (isOverlayVisible (onKeyUpCont
        (onKeyUpSync (onKeyUpSync gInit ("hi @jo".toList) 6 [] none).1
          ("hi ".toList) 3 [] none).1
        ⟨"jo".toList, none⟩ [mkUser "jonathan"] [] [] none).dom = false) := by
  decide

/-- C6 (amended): the keystroke continuation does not re-validate the
trigger context.  Whenever a first keyup captures query `q` and suspends, a
later keyup with no trigger hides the overlay, and then the first keyup's
continuation runs with users whose filtered match list is non-empty, the
stale response is rendered: the overlay becomes visible again showing the
matches for the captured query — the final state is that of the last
continuation to run, not of the last keystroke. -/
theorem stale_response_rendered (g : GState) (text1 text2 : List Char) (c1 c2 : Nat)
    (users : List MentionUser) (githubUsernames : List (List Char))
    (customCommands : List (List Char × CommandData)) (anchor : Option Anchor)
    (q : List Char)
    (h1 : scanForTrigger text1 c1 = some q)
    (h2 : scanForTrigger text2 c2 = none)
    (h3 : scanForCommand text2 c2 = none)
    (hm : filterUsers users q githubUsernames ≠ [])
    (hcr : g.dom.created = true) :
    (onKeyUpSync g text1 c1 customCommands anchor).2
      = some ⟨q, scanForCommand text1 c1⟩ ∧
    isOverlayVisible (onKeyUpSync (onKeyUpSync g text1 c1 customCommands anchor).1
      text2 c2 customCommands anchor).1.dom = false ∧
    isOverlayVisible (onKeyUpCont
      (onKeyUpSync (onKeyUpSync g text1 c1 customCommands anchor).1
        text2 c2 customCommands anchor).1
      ⟨q, scanForCommand text1 c1⟩ users githubUsernames customCommands anchor).dom = true ∧
    (onKeyUpCont
      (onKeyUpSync (onKeyUpSync g text1 c1 customCommands anchor).1
        text2 c2 customCommands anchor).1
      ⟨q, scanForCommand text1 c1⟩ users githubUsernames customCommands anchor).dom.items
      = (filterUsers users q githubUsernames).take 4 := by
  have e1 : onKeyUpSync g text1 c1 customCommands anchor
      = ({ g with mentionStartPos := some ((c1 : Int) - (q.length : Int) - 1) },
         some ⟨q, scanForCommand text1 c1⟩) := by
    unfold onKeyUpSync
    rw [h1]
  have hg1dom : (onKeyUpSync g text1 c1 customCommands anchor).1.dom = g.dom := by
    rw [e1]
  have e2 : onKeyUpSync (onKeyUpSync g text1 c1 customCommands anchor).1
      text2 c2 customCommands anchor
      = ({ (onKeyUpSync g text1 c1 customCommands anchor).1 with
           dom := (hideOverlay (onKeyUpSync g text1 c1 customCommands anchor).1.dom).1 },
         none) := by
    unfold onKeyUpSync
    rw [h2, h3]
  have hg2dom : (onKeyUpSync (onKeyUpSync g text1 c1 customCommands anchor).1
      text2 c2 customCommands anchor).1.dom
      = (hideOverlay (onKeyUpSync g text1 c1 customCommands anchor).1.dom).1 := by
    rw [e2]
  have hcr2 : (onKeyUpSync (onKeyUpSync g text1 c1 customCommands anchor).1
      text2 c2 customCommands anchor).1.dom.created = true := by
    rw [hg2dom, (hideOverlay_spec _).2.2.1, hg1dom]
    exact hcr
  have hcont : onKeyUpCont
      (onKeyUpSync (onKeyUpSync g text1 c1 customCommands anchor).1
        text2 c2 customCommands anchor).1
      ⟨q, scanForCommand text1 c1⟩ users githubUsernames customCommands anchor
      = { (onKeyUpSync (onKeyUpSync g text1 c1 customCommands anchor).1
            text2 c2 customCommands anchor).1 with
          dom := showOverlay
            (onKeyUpSync (onKeyUpSync g text1 c1 customCommands anchor).1
              text2 c2 customCommands anchor).1.dom
            (filterUsers users q githubUsernames) anchor } := by
    unfold onKeyUpCont
    rw [if_pos hm]
  obtain ⟨w1, w2, _, _, _⟩ := showOverlay_spec
    (onKeyUpSync (onKeyUpSync g text1 c1 customCommands anchor).1
      text2 c2 customCommands anchor).1.dom
    (filterUsers users q githubUsernames) anchor hcr2 hm
  refine ⟨by rw [e1], ?_, ?_, ?_⟩
  · rw [hg2dom]
    exact (hideOverlay_spec _).2.1
  · rw [hcont]
    exact w1
  · rw [hcont]
    exact w2

/-- C6 witness for the amended claim: the concrete schedule of the
counterexample, driven through the general theorem. -/
theorem stale_response_rendered_witness :
    (onKeyUpSync gInit ("hi @jo".toList) 6 [] none).2
      = some ⟨"jo".toList, scanForCommand ("hi @jo".toList) 6⟩ ∧
    isOverlayVisible (onKeyUpSync (onKeyUpSync gInit ("hi @jo".toList) 6 [] none).1
      ("hi ".toList) 3 [] none).1.dom = false ∧
    isOverlayVisible (onKeyUpCont
      (onKeyUpSync (onKeyUpSync gInit ("hi @jo".toList) 6 [] none).1
        ("hi ".toList) 3 [] none).1
      ⟨"jo".toList, scanForCommand ("hi @jo".toList) 6⟩
      [mkUser "jonathan"] [] [] none).dom = true ∧
    (onKeyUpCont
      (onKeyUpSync (onKeyUpSync gInit ("hi @jo".toList) 6 [] none).1
        ("hi ".toList) 3 [] none).1
      ⟨"jo".toList, scanForCommand ("hi @jo".toList) 6⟩
      [mkUser "jonathan"] [] [] none).dom.items
      = (filterUsers [mkUser "jonathan"] ("jo".toList) []).take 4 :=
  stale_response_rendered gInit ("hi @jo".toList) ("hi ".toList) 6 3
    [mkUser "jonathan"] [] [] none ("jo".toList)
    (by decide) (by decide) (by decide) (by decide) rfl

/-- C9 (code bug): running the periodic input scan twice while a textarea
with id `ta` stays focused wires its blur listener twice (a fresh anonymous
closure is registered on each scan); only the named keyup and input handlers
stay single because `addEventListener` deduplicates an identical callback. -/
theorem scanInputs_rewires_blur :
    (scanInputs (scanInputs [⟨some ("ta".toList), "false".toList, []⟩]
        (some ("ta".toList)) 2).1 (some ("ta".toList))
        (scanInputs [⟨some ("ta".toList), "false".toList, []⟩] (some ("ta".toList)) 2).2).1.map
      (fun e => (countListeners e EvKind.blur, countListeners e EvKind.keyup,
        countListeners e EvKind.input))
      = [(2, 1, 1)] := by
  decide

/-- C10: executing a command that is neither the built-in `lgtmrand` nor a
configured custom command expands to the empty string, so the input's text
and cursor stay unchanged and no input event is dispatched. -/
theorem executeCommand_unknown_is_noop (command : List Char)
    (customCommands : List (List Char × CommandData)) (lgtmImageUrl : Option (List Char))
    (nowIso nowDate nowTime : List Char) (input : InputState)
    (h1 : command ≠ "lgtmrand".toList) (h2 : customCommands.lookup command = none) :
    executeCommand command customCommands lgtmImageUrl nowIso nowDate nowTime input
      = (input, false) := by
  have hres : executeCommandResult command customCommands lgtmImageUrl nowIso nowDate nowTime
      = [] := by
    unfold executeCommandResult
    rw [if_neg h1, h2]
  unfold executeCommand
  rw [hres, if_pos rfl]

/-- C10 witness: the unknown command `nope` typed as `!nope` leaves the input
untouched. -/
theorem executeCommand_unknown_is_noop_witness :
    executeCommand ("nope".toList) [] none [] [] [] ⟨"x !nope".toList, 7, 7⟩
      = (⟨"x !nope".toList, 7, 7⟩, false) :=
  executeCommand_unknown_is_noop ("nope".toList) [] none [] [] []
    ⟨"x !nope".toList, 7, 7⟩ (by decide) rfl

end GithubMentionsPlus
